import Mathlib

/-!
# Verification of the TFD500 data-logger driver (tfd500.py)

A shallow embedding of the protocol driver `src/tfd500.py`:

* the record decoder and the block stream of `Tfd500.__iter__`,
* the configuration decoder of `Tfd500.configuration`,
* the transport exchange `Tfd500.xfer` and the interval setter.

Bytes are modelled as `Nat` values (a Python `bytes` object holds values
0..255; the decoders reduce modulo 256 exactly where `struct.unpack`
reinterprets raw bytes).  Python floats produced by `raw / 10.0` are
modelled as exact rationals `raw / 10 : ℚ`; every claim about temperatures
is structural or about the exact value `0.0`, never about rounding.
`datetime` timestamps of the stream are modelled as an integer number of
seconds; `timestamp += timedelta(seconds=interval)` is exact integer
arithmetic on that representation.
-/

namespace Tfd500

/-- `struct.unpack ">h"`: two bytes, big endian, reinterpreted as a signed
16-bit integer. -/
def toInt16 (hi lo : Nat) : Int :=
  let u : Nat := (hi % 256) * 256 + lo % 256
  if u < 32768 then (u : Int) else (u : Int) - 65536

/-- `struct.unpack "b"`: one byte reinterpreted as a signed 8-bit integer. -/
def toInt8 (b : Nat) : Int :=
  let u : Nat := b % 256
  if u < 128 then (u : Int) else (u : Int) - 256

/-- Humidity-mode decoding of one raw block (`__iter__`, lines 105-108):
`usable = len(record) // 3` and
`struct.unpack(">" + "hb" * usable, record[:3*usable])`, zipped into
(temperature raw, humidity raw) pairs.  Exactly the complete leading
3-byte groups are consumed; a 1- or 2-byte tail is ignored. -/
def decodeHumPairs : List Nat → List (Int × Int)
  | b0 :: b1 :: b2 :: rest => (toInt16 b0 b1, toInt8 b2) :: decodeHumPairs rest
  | _ => []

/-- All consecutive big-endian 16-bit values of a byte list (a trailing
single byte is ignored). -/
def decodeTempVals : List Nat → List Int
  | b0 :: b1 :: rest => toInt16 b0 b1 :: decodeTempVals rest
  | _ => []

/-- Temperature-mode decoding of one raw block (`__iter__`, line 115):
`struct.unpack(">128h", record)` demands exactly 256 bytes and raises
`struct.error` (modelled as `none`) otherwise. -/
def unpack128h (record : List Nat) : Option (List Int) :=
  if record.length = 256 then some (decodeTempVals record) else none

/-- One decoded measurement of a block: the raw temperature (tenths of a
degree) and, in humidity mode, the raw humidity percentage. -/
def decodeRecord (humidity : Bool) (record : List Nat) :
    Option (List (Int × Option Int)) :=
  if humidity then
    some ((decodeHumPairs record).map fun p => (p.1, some p.2))
  else
    (unpack128h record).map fun vs => vs.map fun v => (v, (none : Option Int))

/-- One decoded sample as yielded by `__iter__`: the tuple
`(timestamp, value / 10.0)` or `(timestamp, value[0] / 10.0, value[1])`. -/
structure Sample where
  time : Int
  temp : ℚ
  hum : Option Int
deriving DecidableEq, Inhabited, Repr

/-- The batch-building loop body of `__iter__` (lines 108-113 / 116-121)
once the remaining-count bound has been applied: sample number `c` of the
stream gets timestamp `start + c * interval` and temperature `raw / 10`. -/
def mkBatch (start interval : Int) : Nat → List (Int × Option Int) → List Sample
  | _, [] => []
  | c, v :: rest =>
    { time := start + (c : Int) * interval, temp := (v.1 : ℚ) / 10, hum := v.2 } ::
      mkBatch start interval (c + 1) rest

/-- The block-reading loop of `__iter__` (lines 100-123).  `dev b` is the
256-byte record the device answers to `xfer("F", 256, "%04d" % b, True)`.
The state is `(block, count)` exactly as in the source; each iteration
decodes one block, keeps at most `N - count` of its values (the inner
`if count >= number_of_points: break`), yields the batch and advances.
The result pairs the yielded batches with the list of block indices
requested from the device.  `fuel` bounds the number of loop iterations
(the Python loop is unbounded); `none` models a pass that either raises
`struct.error` while decoding or does not finish within `fuel` iterations. -/
def iterBlocks (dev : Nat → List Nat) (N : Nat) (humidity : Bool)
    (start interval : Int) :
    Nat → Nat → Nat → Option (List (List Sample) × List Nat)
  | 0, _, _ => none
  | fuel + 1, block, count =>
    if count < N then
      match decodeRecord humidity (dev block) with
      | none => none
      | some vals =>
        let batch := mkBatch start interval count (vals.take (N - count))
        match iterBlocks dev N humidity start interval fuel (block + 1)
            (count + batch.length) with
        | none => none
        | some (batches, reqs) => some (batch :: batches, block :: reqs)
    else
      some ([], [])

/-! ## The transport exchange `Tfd500.xfer` (lines 28-76)

The wire is modelled by the byte list the device has queued for reading
(`stream`); `read(n)` takes up to `n` of its bytes (a short take models the
read timeout), `read_until(term)` reads up to and including the first
occurrence of the terminator, or everything on timeout.  The outcome
records the bytes written (command byte followed by the parameter bytes),
whether the payload was returned (`Except.ok`) or the echo assertion of
line 62 raised (`Except.error ()`), and whether `connection.close()` on
line 72 was reached. -/

/-- `serial.Serial.read_until`: the shortest prefix of the stream that ends
with the terminator (returned including the terminator), or the whole
stream when the terminator never appears (timeout). -/
def readUntil (term : List Nat) : List Nat → List Nat
  | [] => []
  | b :: rest => if term.isPrefixOf (b :: rest) then term else b :: readUntil term rest

/-- The payload read after the echo byte: `expected` is either a byte count
(`connection.read(expected)`) or a terminator (`connection.read_until`). -/
def readExpected (expected : Nat ⊕ List Nat) (rest : List Nat) : List Nat :=
  match expected with
  | Sum.inl n => rest.take n
  | Sum.inr term => readUntil term rest

instance instDecEqExceptBytes : DecidableEq (Except Unit (List Nat)) := fun a b =>
  match a, b with
  | Except.error u, Except.error v => by cases u; cases v; exact isTrue rfl
  | Except.error _, Except.ok _ => isFalse (fun h => Except.noConfusion h)
  | Except.ok _, Except.error _ => isFalse (fun h => Except.noConfusion h)
  | Except.ok x, Except.ok y =>
    match decEq x y with
    | isTrue h => isTrue (by rw [h])
    | isFalse h => isFalse (fun hh => h (by injection hh))

/-- What one call of `Tfd500.xfer` did to the serial connection. -/
structure XferTrace where
  written : List Nat
  result : Except Unit (List Nat)
  closed : Bool
deriving DecidableEq, Repr

/-- `Tfd500.xfer` for a single-byte command (every call site sends one
ASCII character).  The connection is opened, `cmd` and the parameters are
written, one echo byte is read and compared with the command byte by the
`assert` of line 62; only if they are equal is the payload read and the
connection closed.  An empty stream makes `connection.read(1)` return no
byte (timeout), which also fails the assertion.  `result = Except.error ()`
is the `AssertionError`; it is raised before `connection.close()` on
line 72 is reached, so `closed` is false on that path. -/
def xferModel (cmd : Nat) (params : List Nat) (expected : Nat ⊕ List Nat)
    (stream : List Nat) : XferTrace :=
  let written := cmd :: params
  match stream with
  | [] => { written := written, result := Except.error (), closed := false }
  | e :: rest =>
    if e = cmd then
      { written := written
        result := Except.ok (readExpected expected rest)
        closed := true }
    else
      { written := written, result := Except.error (), closed := false }

/-- The `mapping = \x7b10: "0", 60: "1", 300: "2"\x7d` lookup of the
interval setter (lines 231-232), with the coded parameter as its ASCII
byte. -/
def intervalCode (value : Nat) : Option Nat :=
  if value = 10 then some 48
  else if value = 60 then some 49
  else if value = 300 then some 50
  else none

/-- The interval setter (lines 222-234).  An invalid value raises
`ValueError` before `xfer` is ever called — no connection is opened and no
byte is written — modelled as `none`.  A valid value performs
`xfer("I", 0, mapping[value])`: command byte 73 = "I" with the single
coded parameter byte. -/
def setInterval (value : Nat) (stream : List Nat) : Option XferTrace :=
  match intervalCode value with
  | none => none
  | some code => some (xferModel 73 [code] (Sum.inl 0) stream)

/-! ## The configuration decoder `Tfd500.configuration` (lines 156-180)

The two textual replies are handled after UTF-8 decoding, so they are
modelled as `List Char`.  Python library routines used by the decoder
(`str.split`, `int`, `datetime.strptime`) are modelled on the shapes the
device produces: `split()` on runs of spaces, `int` on non-empty digit
strings, `strptime` with format `"%d.%m.%y %H:%M:%S"` as 1-2 digit numeric
fields between the literal separators, with `%y` mapping 0-68 to 2000-2068
and 69-99 to 1969-1999, and the `datetime` constructor's range checks
(month 1-12, day within the month, hour 0-23, minute and second 0-59).
Any parse failure raises in Python and is modelled as `none`. -/

/-- `int(c)` for a single character: its value if it is a decimal digit,
a `ValueError` (`none`) otherwise. -/
def digitVal (c : Char) : Option Nat :=
  if '0' ≤ c ∧ c ≤ '9' then some (c.toNat - '0'.toNat) else none

/-- Accumulator loop of `parseNat`. -/
def parseNatAux (acc : Nat) : List Char → Option Nat
  | [] => some acc
  | c :: rest =>
    match digitVal c with
    | some d => parseNatAux (10 * acc + d) rest
    | none => none

/-- `int(s)` on the digit-only strings the device sends (leading zeros
allowed, empty or non-digit input raises). -/
def parseNat (s : List Char) : Option Nat :=
  match s with
  | [] => none
  | _ => parseNatAux 0 s

/-- A 1-2 digit numeric `strptime` field (`%d`, `%m`, `%H`, `%M`, `%S`). -/
def parseField (s : List Char) : Option Nat :=
  match s with
  | [c] => digitVal c
  | [c1, c2] =>
    match digitVal c1, digitVal c2 with
    | some a, some b => some (10 * a + b)
    | _, _ => none
  | _ => none

/-- The exactly-two-digit `%y` field. -/
def parseField2 (s : List Char) : Option Nat :=
  match s with
  | [c1, c2] =>
    match digitVal c1, digitVal c2 with
    | some a, some b => some (10 * a + b)
    | _, _ => none
  | _ => none

/-- `str.split(sep)` keeping empty pieces, used to model the literal `.`
and `:` separators of the `strptime` format. -/
def splitOnChar (sep : Char) : List Char → List (List Char)
  | [] => [[]]
  | c :: rest =>
    match splitOnChar sep rest with
    | [] => [[]]
    | w :: ws => if c = sep then [] :: w :: ws else (c :: w) :: ws

/-- Accumulator loop of `splitWs` (`cur` holds the current word reversed). -/
def splitWsAux (cur : List Char) : List Char → List (List Char)
  | [] => if cur.isEmpty then [] else [cur.reverse]
  | c :: rest =>
    if c = ' ' then
      if cur.isEmpty then splitWsAux [] rest
      else cur.reverse :: splitWsAux [] rest
    else splitWsAux (c :: cur) rest

/-- `str.split()` with no argument: split on runs of spaces, no empty
words (the replies contain no other whitespace). -/
def splitWs (s : List Char) : List (List Char) :=
  splitWsAux [] s

/-- Gregorian leap year, as validated by `datetime`. -/
def isLeap (y : Nat) : Bool :=
  (y % 4 = 0 && y % 100 ≠ 0) || y % 400 = 0

/-- Days in a month, as validated by the `datetime` constructor. -/
def daysInMonth (y m : Nat) : Nat :=
  if m = 2 then (if isLeap y then 29 else 28)
  else if m = 4 ∨ m = 6 ∨ m = 9 ∨ m = 11 then 30
  else 31

/-- The timestamp produced by `datetime.strptime`. -/
structure DateTime where
  year : Nat
  month : Nat
  day : Nat
  hour : Nat
  minute : Nat
  second : Nat
deriving DecidableEq, Repr

/-- `datetime.strptime(" ".join([startdate, starttime]), "%d.%m.%y %H:%M:%S")`
(line 174), taking the two whitespace-free words of the reply.  The words
are split at the literal `.` / `:` separators, each numeric field is
parsed, `%y` applies the POSIX century pivot, and the `datetime`
constructor's range checks are applied. -/
def parseStart (dateS timeS : List Char) : Option DateTime :=
  match splitOnChar '.' dateS, splitOnChar ':' timeS with
  | [dS, mS, yS], [hS, minS, secS] =>
    match parseField dS, parseField mS, parseField2 yS,
        parseField hS, parseField minS, parseField secS with
    | some d, some m, some y, some h, some mi, some sec =>
      let year := if y ≤ 68 then 2000 + y else 1900 + y
      if 1 ≤ m ∧ m ≤ 12 ∧ 1 ≤ d ∧ d ≤ daysInMonth year m ∧
          h ≤ 23 ∧ mi ≤ 59 ∧ sec ≤ 59 then
        some { year := year, month := m, day := d, hour := h,
               minute := mi, second := sec }
      else none
    | _, _, _, _, _, _ => none
  | _, _ => none

/-- The configuration dictionary of lines 172-177. -/
structure Config where
  count : Nat
  start : DateTime
  humidity : Bool
  interval : Nat
deriving DecidableEq, Repr

/-- `Tfd500.configuration` (lines 156-180) applied to the payloads of the
two replies (the text after the consumed echo byte).  The count/start
payload must split into exactly three words (`count, startdate, starttime =
....split()`), the mode/interval payload into exactly four
(`mode, interval, _date, _time = ....split()`); `int(count)` parses the
count, `strptime` the start, `int(mode[1]) > 0` the humidity flag (an
out-of-range index or a non-digit character raises), and
`(10, 60, 5*60)[int(interval[1])]` the interval (an index above 2
raises `IndexError`). -/
def configurationOf (dPayload oPayload : List Char) : Option Config :=
  match splitWs dPayload, splitWs oPayload with
  | [countS, dateS, timeS], [modeS, intervalS, _dS, _tS] =>
    (parseNat countS).bind fun count =>
    (parseStart dateS timeS).bind fun start =>
    (match modeS with | _ :: c :: _ => digitVal c | _ => none).bind fun hd =>
    (match intervalS with | _ :: c :: _ => digitVal c | _ => none).bind fun ic =>
    (match ic with
      | 0 => some 10
      | 1 => some 60
      | 2 => some 300
      | _ => none).bind fun interval =>
    some { count := count, start := start,
           humidity := decide (0 < hd), interval := interval }
  | _, _ => none

/-- The text path of `Tfd500.xfer` for a fixed-length reply: the echo byte
is consumed and validated (the assertion raising is `none`), then
`expected` characters are read. -/
def textReply (cmd : Char) (expected : Nat) (stream : List Char) :
    Option (List Char) :=
  match stream with
  | [] => none
  | e :: rest => if e = cmd then some (rest.take expected) else none

/-- `Tfd500.configuration` end to end: both device replies starting with
their echo bytes (`xfer("d", 24)` and `xfer("o", 24)`), decoded into the
configuration dictionary. -/
def configurationFromReplies (dReply oReply : List Char) : Option Config :=
  (textReply 'd' 24 dReply).bind fun dPayload =>
  (textReply 'o' 24 oReply).bind fun oPayload =>
  configurationOf dPayload oPayload

/-! ## Lemmas about the record decoder -/

theorem decodeHumPairs_length : ∀ bs : List Nat,
    (decodeHumPairs bs).length = bs.length / 3
  | [] => by simp [decodeHumPairs]
  | [_] => by simp [decodeHumPairs]
  | [_, _] => by simp [decodeHumPairs]
  | _ :: _ :: _ :: rest => by
    rw [decodeHumPairs]
    simp only [List.length_cons, decodeHumPairs_length rest]
    omega

theorem decodeHumPairs_eq : ∀ bs : List Nat,
    decodeHumPairs bs = (List.range (bs.length / 3)).map
      (fun k => (toInt16 (bs.getD (3 * k) 0) (bs.getD (3 * k + 1) 0),
                 toInt8 (bs.getD (3 * k + 2) 0)))
  | [] => by simp [decodeHumPairs]
  | [_] => by simp [decodeHumPairs]
  | [_, _] => by simp [decodeHumPairs]
  | b0 :: b1 :: b2 :: rest => by
    rw [decodeHumPairs, decodeHumPairs_eq rest]
    have hlen : (b0 :: b1 :: b2 :: rest).length / 3 = rest.length / 3 + 1 := by
      simp only [List.length_cons]; omega
    rw [hlen, List.range_succ_eq_map, List.map_cons, List.map_map]
    refine congrArg₂ _ (by simp) (List.map_congr_left fun k _ => ?_)
    have e0 : 3 * Nat.succ k = 3 * k + 1 + 1 + 1 := by omega
    have e1 : 3 * Nat.succ k + 1 = 3 * k + 1 + 1 + 1 + 1 := by omega
    have e2 : 3 * Nat.succ k + 2 = 3 * k + 2 + 1 + 1 + 1 := by omega
    simp only [Function.comp_apply, e0, e1, e2, List.getD_cons_succ]

theorem decodeTempVals_length : ∀ bs : List Nat,
    (decodeTempVals bs).length = bs.length / 2
  | [] => by simp [decodeTempVals]
  | [_] => by simp [decodeTempVals]
  | _ :: _ :: rest => by
    rw [decodeTempVals]
    simp only [List.length_cons, decodeTempVals_length rest]
    omega

theorem decodeTempVals_eq : ∀ bs : List Nat,
    decodeTempVals bs = (List.range (bs.length / 2)).map
      (fun k => toInt16 (bs.getD (2 * k) 0) (bs.getD (2 * k + 1) 0))
  | [] => by simp [decodeTempVals]
  | [_] => by simp [decodeTempVals]
  | b0 :: b1 :: rest => by
    rw [decodeTempVals, decodeTempVals_eq rest]
    have hlen : (b0 :: b1 :: rest).length / 2 = rest.length / 2 + 1 := by
      simp only [List.length_cons]; omega
    rw [hlen, List.range_succ_eq_map, List.map_cons, List.map_map]
    refine congrArg₂ _ (by simp) (List.map_congr_left fun k _ => ?_)
    have e0 : 2 * Nat.succ k = 2 * k + 1 + 1 := by omega
    have e1 : 2 * Nat.succ k + 1 = 2 * k + 1 + 1 + 1 := by omega
    simp only [Function.comp_apply, e0, e1, List.getD_cons_succ]

theorem mkBatch_length (start interval : Int) : ∀ (c : Nat) (vs : List (Int × Option Int)),
    (mkBatch start interval c vs).length = vs.length
  | _, [] => rfl
  | c, _ :: rest => by
    simp [mkBatch, mkBatch_length start interval (c + 1) rest]

theorem mkBatch_map_temp (start interval : Int) : ∀ (c : Nat) (vs : List (Int × Option Int)),
    (mkBatch start interval c vs).map Sample.temp = vs.map (fun v => (v.1 : ℚ) / 10)
  | _, [] => rfl
  | c, v :: rest => by
    simp [mkBatch, mkBatch_map_temp start interval (c + 1) rest]

theorem mkBatch_map_hum (start interval : Int) : ∀ (c : Nat) (vs : List (Int × Option Int)),
    (mkBatch start interval c vs).map Sample.hum = vs.map Prod.snd
  | _, [] => rfl
  | c, v :: rest => by
    simp [mkBatch, mkBatch_map_hum start interval (c + 1) rest]

theorem mkBatch_map_time (start interval : Int) : ∀ (c : Nat) (vs : List (Int × Option Int)),
    (mkBatch start interval c vs).map Sample.time
      = (List.range vs.length).map (fun j => start + ((c + j : Nat) : Int) * interval)
  | c, [] => by simp [mkBatch]
  | c, v :: rest => by
    rw [mkBatch, List.map_cons, mkBatch_map_time start interval (c + 1) rest,
      List.length_cons, List.range_succ_eq_map, List.map_cons, List.map_map]
    refine congrArg₂ _ (by simp) (List.map_congr_left fun j _ => ?_)
    have : c + Nat.succ j = c + 1 + j := by omega
    simp only [Function.comp_apply, this]

theorem mkBatch_getD (start interval : Int) :
    ∀ (c : Nat) (vs : List (Int × Option Int)) (j : Nat), j < vs.length →
      (mkBatch start interval c vs).getD j default =
        { time := start + ((c + j : Nat) : Int) * interval,
          temp := ((vs.getD j (0, none)).1 : ℚ) / 10,
          hum := (vs.getD j (0, none)).2 }
  | _, [], j, h => absurd h (by simp)
  | c, v :: rest, 0, _ => by simp [mkBatch]
  | c, v :: rest, j + 1, h => by
    rw [mkBatch]
    simp only [List.getD_cons_succ]
    rw [mkBatch_getD start interval (c + 1) rest j (by simpa using h)]
    have : c + 1 + j = c + (j + 1) := by omega
    rw [this]

/-- C3: In humidity mode, decoding any block consumes exactly
`⌊length / 3⌋` complete 3-byte groups and no partial group — for a
256-byte block exactly 85 groups (255 of 256 bytes), never 86 — and each
group decodes as the pair (signed 16-bit big-endian temperature raw value,
signed 8-bit humidity percent), the temperature raw value being divided
by 10 when the sample is built. -/
theorem c3_humidityDecode :
    (∀ bs : List Nat, (decodeHumPairs bs).length = bs.length / 3) ∧
    (∀ bs : List Nat, bs.length = 256 → (decodeHumPairs bs).length = 85) ∧
    (∀ bs : List Nat,
      decodeHumPairs bs = (List.range (bs.length / 3)).map
        (fun k => (toInt16 (bs.getD (3 * k) 0) (bs.getD (3 * k + 1) 0),
                   toInt8 (bs.getD (3 * k + 2) 0)))) ∧
    (∀ start interval : Int, ∀ c : Nat, ∀ vs : List (Int × Option Int),
      (mkBatch start interval c vs).map Sample.temp
        = vs.map (fun v => (v.1 : ℚ) / 10)) := by
  refine ⟨decodeHumPairs_length, fun bs h => ?_, decodeHumPairs_eq, mkBatch_map_temp⟩
  rw [decodeHumPairs_length, h]

/-- C9: Decoding a block whose length is not 256 bytes raises a decode
failure in temperature-only mode (`struct.unpack(">128h", record)` needs
exactly 256 bytes), whereas in humidity mode decoding never raises for any
block length: it consumes `⌊length / 3⌋` complete groups and ignores the
remainder. -/
theorem c9_decodeFailure :
    (∀ bs : List Nat, (decodeRecord false bs).isSome ↔ bs.length = 256) ∧
    (∀ bs : List Nat, ∃ vs, decodeRecord true bs = some vs ∧
      vs.length = bs.length / 3) := by
  constructor
  · intro bs
    simp only [decodeRecord, unpack128h, Bool.false_eq_true, if_false]
    by_cases h : bs.length = 256 <;> simp [h]
  · intro bs
    refine ⟨(decodeHumPairs bs).map fun p => (p.1, some p.2), ?_, ?_⟩
    · simp [decodeRecord]
    · rw [List.length_map, decodeHumPairs_length]

set_option maxRecDepth 4096

/-- C4: In temperature-only mode, a 256-byte block decodes as 128 signed
16-bit big-endian values (temperature = raw / 10); decoding a 256-byte
all-zero block while at least 128 samples remain to be emitted yields 128
samples, each with temperature 0 and no humidity, whose timestamps
strictly increase by the configured interval. -/
theorem c4_tempDecode (start interval : Int)
    (hI : interval = 10 ∨ interval = 60 ∨ interval = 300) (c m : Nat)
    (hm : 128 ≤ m) :
    (∀ bs : List Nat, bs.length = 256 →
      unpack128h bs = some ((List.range 128).map
        (fun k => toInt16 (bs.getD (2 * k) 0) (bs.getD (2 * k + 1) 0)))) ∧
    decodeRecord false (List.replicate 256 0)
      = some (List.replicate 128 ((0 : Int), (none : Option Int))) ∧
    (∃ batch, batch = mkBatch start interval c
        ((List.replicate 128 ((0 : Int), (none : Option Int))).take m) ∧
      batch.length = 128 ∧
      (∀ s ∈ batch, s.temp = 0 ∧ s.hum = none) ∧
      (∀ j : Nat, j + 1 < 128 →
        (batch.getD (j + 1) default).time = (batch.getD j default).time + interval ∧
        (batch.getD j default).time < (batch.getD (j + 1) default).time)) := by
  have hpos : (0 : Int) < interval := by rcases hI with h | h | h <;> simp [h]
  refine ⟨?_, by decide, ?_⟩
  · intro bs hbs
    rw [unpack128h, if_pos hbs, decodeTempVals_eq, hbs]
  · have htake : (List.replicate 128 ((0 : Int), (none : Option Int))).take m
        = List.replicate 128 ((0 : Int), (none : Option Int)) :=
      List.take_of_length_le (by simp; omega)
    refine ⟨_, rfl, ?_, ?_, ?_⟩
    · rw [htake, mkBatch_length, List.length_replicate]
    · intro s hs
      constructor
      · have : s.temp ∈ (mkBatch start interval c
            ((List.replicate 128 ((0 : Int), (none : Option Int))).take m)).map
              Sample.temp := List.mem_map_of_mem Sample.temp hs
        rw [mkBatch_map_temp, htake, List.map_replicate] at this
        have := List.eq_of_mem_replicate this
        simpa using this
      · have : s.hum ∈ (mkBatch start interval c
            ((List.replicate 128 ((0 : Int), (none : Option Int))).take m)).map
              Sample.hum := List.mem_map_of_mem Sample.hum hs
        rw [mkBatch_map_hum, htake, List.map_replicate] at this
        exact List.eq_of_mem_replicate this
    · intro j hj
      rw [htake]
      rw [mkBatch_getD start interval c _ (j + 1) (by simpa using hj),
        mkBatch_getD start interval c _ j (by simp; omega)]
      constructor
      · simp only []
        push_cast
        ring
      · simp only []
        have : ((c + j : Nat) : Int) < ((c + (j + 1) : Nat) : Int) := by
          push_cast; omega
        nlinarith [hpos]

/-! ## Lemmas about the block stream -/

/-- The number of samples emitted before batch `k` of a pass. -/
def preLen (batches : List (List Sample)) (k : Nat) : Nat :=
  ((batches.take k).map List.length).sum

theorem preLen_zero (batches : List (List Sample)) : preLen batches 0 = 0 := rfl

theorem preLen_succ_cons (b : List Sample) (bs : List (List Sample)) (k : Nat) :
    preLen (b :: bs) (k + 1) = b.length + preLen bs k := by
  simp [preLen]

/-- Batch `k` of a pass started at running count `count` carries the
timestamps `start + (count + preLen k + j) * interval`. -/
theorem iterBlocks_time_spec (dev : Nat → List Nat) (N : Nat) (hum : Bool)
    (start interval : Int) :
    ∀ (fuel block count : Nat) (batches : List (List Sample)) (reqs : List Nat),
      iterBlocks dev N hum start interval fuel block count = some (batches, reqs) →
      ∀ k : Nat, ∀ hk : k < batches.length,
        (batches.get ⟨k, hk⟩).map Sample.time
          = (List.range (batches.get ⟨k, hk⟩).length).map
              (fun j => start + ((count + preLen batches k + j : Nat) : Int) * interval) := by
  intro fuel
  induction fuel with
  | zero =>
    intro block count batches reqs h
    simp [iterBlocks] at h
  | succ fuel ih =>
    intro block count batches reqs h k hk
    rw [iterBlocks] at h
    by_cases hc : count < N
    · rw [if_pos hc] at h
      cases hdec : decodeRecord hum (dev block) with
      | none => rw [hdec] at h; exact absurd h (by simp)
      | some vals =>
        rw [hdec] at h
        dsimp only [] at h
        cases hrec : iterBlocks dev N hum start interval fuel (block + 1)
            (count + (mkBatch start interval count (vals.take (N - count))).length) with
        | none => rw [hrec] at h; exact absurd h (by simp)
        | some pr =>
          obtain ⟨bs, rs⟩ := pr
          rw [hrec] at h
          dsimp only [] at h
          rw [Option.some.injEq, Prod.mk.injEq] at h
          obtain ⟨hb, _⟩ := h
          subst hb
          cases k with
          | zero =>
            simp only [List.get, preLen_zero, Nat.add_zero]
            rw [mkBatch_map_time, mkBatch_length]
          | succ k =>
            have hk' : k < bs.length := by simpa using hk
            simp only [List.get]
            rw [preLen_succ_cons, ← Nat.add_assoc]
            exact ih (block + 1)
              (count + (mkBatch start interval count (vals.take (N - count))).length)
              bs rs hrec k hk'
    · rw [if_neg hc] at h
      rw [Option.some.injEq, Prod.mk.injEq] at h
      obtain ⟨hb, _⟩ := h
      rw [← hb] at hk
      exact absurd hk (by simp)

/-- The flattened pass started at running count `count` carries the
timestamps `start + (count + i) * interval` at flat position `i`. -/
theorem iterBlocks_flatten_time (dev : Nat → List Nat) (N : Nat) (hum : Bool)
    (start interval : Int) :
    ∀ (fuel block count : Nat) (batches : List (List Sample)) (reqs : List Nat),
      iterBlocks dev N hum start interval fuel block count = some (batches, reqs) →
      batches.flatten.map Sample.time
        = (List.range batches.flatten.length).map
            (fun i => start + ((count + i : Nat) : Int) * interval) := by
  intro fuel
  induction fuel with
  | zero =>
    intro block count batches reqs h
    simp [iterBlocks] at h
  | succ fuel ih =>
    intro block count batches reqs h
    rw [iterBlocks] at h
    by_cases hc : count < N
    · rw [if_pos hc] at h
      cases hdec : decodeRecord hum (dev block) with
      | none => rw [hdec] at h; exact absurd h (by simp)
      | some vals =>
        rw [hdec] at h
        dsimp only [] at h
        cases hrec : iterBlocks dev N hum start interval fuel (block + 1)
            (count + (mkBatch start interval count (vals.take (N - count))).length) with
        | none => rw [hrec] at h; exact absurd h (by simp)
        | some pr =>
          obtain ⟨bs, rs⟩ := pr
          rw [hrec] at h
          dsimp only [] at h
          rw [Option.some.injEq, Prod.mk.injEq] at h
          obtain ⟨hb, _⟩ := h
          subst hb
          rw [List.flatten_cons, List.map_append, List.length_append,
            List.range_add, List.map_append, List.map_map]
          refine congrArg₂ _ ?_ ?_
          · rw [mkBatch_map_time, mkBatch_length]
          · rw [ih (block + 1) _ bs rs hrec]
            refine List.map_congr_left fun i _ => ?_
            simp only [Function.comp_apply]
            rw [← Nat.add_assoc]
    · rw [if_neg hc] at h
      rw [Option.some.injEq, Prod.mk.injEq] at h
      obtain ⟨hb, _⟩ := h
      rw [← hb]
      simp

theorem preLen_succ (batches : List (List Sample)) (k : Nat) (hk : k < batches.length) :
    preLen batches (k + 1) = preLen batches k + (batches.get ⟨k, hk⟩).length := by
  have hk' : k < (batches.map List.length).length := by simpa using hk
  unfold preLen
  simp only [List.map_take]
  rw [List.sum_take_succ _ k hk']
  simp

/-- C2: For every stream pass in either recording mode, the sample at
global running index `i` has timestamp `start + i * interval`, and the
timestamps are contiguous across block boundaries: the last timestamp of
batch `k` plus the interval is the first timestamp of batch `k + 1`,
whenever both are present. -/
theorem c2_timestamps (dev : Nat → List Nat) (N : Nat) (hum : Bool)
    (start interval : Int)
    (hI : interval = 10 ∨ interval = 60 ∨ interval = 300)
    (fuel : Nat) (batches : List (List Sample)) (reqs : List Nat)
    (h : iterBlocks dev N hum start interval fuel 0 0 = some (batches, reqs)) :
    (batches.flatten.map Sample.time
      = (List.range batches.flatten.length).map
          (fun i : Nat => start + (i : Int) * interval)) ∧
    (∀ k : Nat, ∀ x ∈ (batches.getD k []).getLast?, ∀ y ∈ (batches.getD (k + 1) []).head?,
      x.time + interval = y.time) := by
  constructor
  · rw [iterBlocks_flatten_time dev N hum start interval fuel 0 0 batches reqs h]
    exact List.map_congr_left fun i _ => by simp
  · intro k x hx y hy
    have hk1 : k + 1 < batches.length := by
      by_contra hcon
      push_neg at hcon
      rw [List.getD_eq_default _ _ hcon] at hy
      simp at hy
    have hk : k < batches.length := by omega
    have hbk : batches.getD k [] = batches.get ⟨k, hk⟩ := by
      rw [List.getD_eq_getElem _ _ hk, List.get_eq_getElem]
    have hbk1 : batches.getD (k + 1) [] = batches.get ⟨k + 1, hk1⟩ := by
      rw [List.getD_eq_getElem _ _ hk1, List.get_eq_getElem]
    have hsk := iterBlocks_time_spec dev N hum start interval fuel 0 0 batches reqs h k hk
    have hsk1 :=
      iterBlocks_time_spec dev N hum start interval fuel 0 0 batches reqs h (k + 1) hk1
    rw [hbk] at hx
    rw [hbk1] at hy
    rw [Option.mem_def] at hx hy
    obtain ⟨m, hm⟩ : ∃ m, (batches.get ⟨k, hk⟩).length = m + 1 := by
      rcases hlen0 : (batches.get ⟨k, hk⟩).length with _ | m
      · rw [List.length_eq_zero] at hlen0
        rw [hlen0] at hx
        simp at hx
      · exact ⟨m, rfl⟩
    obtain ⟨m1, hm1⟩ : ∃ m1, (batches.get ⟨k + 1, hk1⟩).length = m1 + 1 := by
      rcases hlen1 : (batches.get ⟨k + 1, hk1⟩).length with _ | m1
      · rw [List.length_eq_zero] at hlen1
        rw [hlen1] at hy
        simp at hy
      · exact ⟨m1, rfl⟩
    have hx' : ((batches.get ⟨k, hk⟩).map Sample.time).getLast? = some x.time := by
      rw [List.getLast?_map, hx]
      rfl
    rw [hsk, hm, List.range_succ] at hx'
    simp only [List.map_append, List.map_cons, List.map_nil] at hx'
    rw [List.getLast?_concat] at hx'
    have hy' : ((batches.get ⟨k + 1, hk1⟩).map Sample.time).head? = some y.time := by
      rw [List.head?_map, hy]
      rfl
    rw [hsk1, hm1, List.range_succ_eq_map, List.map_cons, List.head?_cons] at hy'
    have hxe := Option.some.inj hx'
    have hye := Option.some.inj hy'
    have hpre : preLen batches (k + 1) = preLen batches k + (m + 1) := by
      rw [preLen_succ batches k hk, hm]
    rw [← hxe, ← hye, hpre]
    push_cast
    ring

/-- In temperature-only mode, against a device that always answers 256
bytes, the pass with `fuel` more than the remaining count finishes;
batch `k` carries `min 128 (remaining - 128 * k)` samples and the batch
sizes sum to the remaining count. -/
theorem iterBlocks_temp_run (dev : Nat → List Nat) (N : Nat) (start interval : Int)
    (hdev : ∀ b : Nat, (dev b).length = 256) :
    ∀ (fuel count block : Nat), N - count < fuel →
      ∃ batches reqs,
        iterBlocks dev N false start interval fuel block count = some (batches, reqs) ∧
        (batches.map List.length).sum = N - count ∧
        batches.length = (N - count + 127) / 128 ∧
        ∀ k : Nat, (batches.getD k []).length = min 128 (N - count - 128 * k) := by
  intro fuel
  induction fuel with
  | zero => intro count block hfuel; omega
  | succ fuel ih =>
    intro count block hfuel
    by_cases hc : count < N
    · have hd : decodeRecord false (dev block)
          = some ((decodeTempVals (dev block)).map fun v => (v, (none : Option Int))) := by
        rw [decodeRecord]
        simp only [Bool.false_eq_true, if_false]
        rw [unpack128h, if_pos (hdev block)]
        rfl
      have hvlen : ((decodeTempVals (dev block)).map
          fun v => (v, (none : Option Int))).length = 128 := by
        rw [List.length_map, decodeTempVals_length, hdev block]
      have hblen : (mkBatch start interval count
          (((decodeTempVals (dev block)).map
            fun v => (v, (none : Option Int))).take (N - count))).length
          = min (N - count) 128 := by
        rw [mkBatch_length, List.length_take, hvlen]
      obtain ⟨bs, rs, hrec, hsum, hlen, hks⟩ :=
        ih (count + (mkBatch start interval count
          (((decodeTempVals (dev block)).map
            fun v => (v, (none : Option Int))).take (N - count))).length)
          (block + 1) (by rw [hblen]; omega)
      refine ⟨mkBatch start interval count
          (((decodeTempVals (dev block)).map
            fun v => (v, (none : Option Int))).take (N - count)) :: bs,
        block :: rs, ?_, ?_, ?_, ?_⟩
      · rw [iterBlocks, if_pos hc, hd]
        dsimp only []
        rw [hrec]
      · rw [hblen] at hsum
        simp only [List.map_cons, List.sum_cons]
        rw [hblen, hsum]
        omega
      · rw [hblen] at hlen
        simp only [List.length_cons]
        rw [hlen]
        omega
      · intro k
        cases k with
        | zero =>
          rw [List.getD_cons_zero, hblen]
          omega
        | succ k =>
          rw [List.getD_cons_succ]
          have := hks k
          rw [hblen] at this
          rw [this]
          omega
    · refine ⟨[], [], ?_, ?_, ?_, ?_⟩
      · rw [iterBlocks, if_neg hc]
      · simp
        omega
      · simp
        omega
      · intro k
        simp
        omega

/-- C1: With 256-byte blocks in temperature-only mode the stream emits
exactly `Configuration.count` samples in total; batch `k` has size
`min 128 (count - 128 * k)` (so emission stops the instant the running
count reaches the configured count, discarding the decoded tail of the
final block); for count 130 the pass yields exactly the two batch sizes
128 and 2. -/
theorem c1_blockStream (dev : Nat → List Nat) (N : Nat) (start interval : Int)
    (hdev : ∀ b : Nat, (dev b).length = 256) :
    ∃ batches reqs,
      iterBlocks dev N false start interval (N + 1) 0 0 = some (batches, reqs) ∧
      (batches.map List.length).sum = N ∧
      (∀ k : Nat, (batches.getD k []).length = min 128 (N - 128 * k)) ∧
      (N = 130 → batches.map List.length = [128, 2]) := by
  obtain ⟨batches, reqs, hit, hsum, hlen, hks⟩ :=
    iterBlocks_temp_run dev N start interval hdev (N + 1) 0 0 (by omega)
  refine ⟨batches, reqs, hit, by simpa using hsum, fun k => by simpa using hks k, ?_⟩
  intro hN
  subst hN
  have h2 : batches.length = 2 := by rw [hlen]
  obtain ⟨b0, b1, rfl⟩ := List.length_eq_two.mp h2
  have h0 := hks 0
  have h1 := hks 1
  simp only [List.getD_cons_zero, List.getD_cons_succ] at h0 h1
  have hb0 : b0.length = 128 := by omega
  have hb1 : b1.length = 2 := by omega
  simp [hb0, hb1]

/-- C10: For a configuration with count 0, the pass terminates at once
with no batch yielded and no block-read request issued to the device. -/
theorem c10_zeroCount (dev : Nat → List Nat) (hum : Bool) (start interval : Int)
    (fuel : Nat) :
    iterBlocks dev 0 hum start interval (fuel + 1) 0 0 = some ([], []) := by
  rw [iterBlocks]
  simp

/-! ## Transport claims -/

theorem xferModel_written (cmd : Nat) (params : List Nat) (expected : Nat ⊕ List Nat)
    (stream : List Nat) :
    (xferModel cmd params expected stream).written = cmd :: params := by
  cases stream with
  | nil => rfl
  | cons e rest =>
    by_cases h : e = cmd <;> simp [xferModel, h]

/-- C6: Every exchange consumes and validates exactly one leading echo
byte before reading any payload bytes: a mismatching echo (including an
empty read on timeout) makes the exchange raise the framing assertion and
return no payload, and whenever a payload is returned the echo byte
equalled the command byte and the payload was read from the bytes after
the echo. -/
theorem c6_framing (cmd : Nat) (params : List Nat) (expected : Nat ⊕ List Nat)
    (stream : List Nat) :
    (∀ e : Nat, ∀ rest : List Nat, stream = e :: rest → e ≠ cmd →
      (xferModel cmd params expected stream).result = Except.error ()) ∧
    (∀ pl : List Nat, (xferModel cmd params expected stream).result = Except.ok pl →
      ∃ e rest, stream = e :: rest ∧ e = cmd ∧ pl = readExpected expected rest) := by
  constructor
  · intro e rest hstream hne
    subst hstream
    simp [xferModel, hne]
  · intro pl hpl
    cases stream with
    | nil => simp [xferModel] at hpl
    | cons e rest =>
      by_cases h : e = cmd
      · refine ⟨e, rest, rfl, h, ?_⟩
        simp only [xferModel, h, if_pos] at hpl
        exact (Except.ok.inj hpl).symm
      · simp [xferModel, h] at hpl

/-- C7: Setting the recording interval to a value outside 10, 60, 300
raises the validation error before `xfer` is called, so no connection is
opened and no byte reaches the transport; for the three valid values the
command byte 73 ("I") is written followed by the coded parameter byte
48/49/50 ("0"/"1"/"2"). -/
theorem c7_intervalValidation :
    (∀ value : Nat, ¬(value = 10 ∨ value = 60 ∨ value = 300) →
      ∀ stream : List Nat, setInterval value stream = none) ∧
    (∀ stream : List Nat,
      (setInterval 10 stream).map XferTrace.written = some [73, 48] ∧
      (setInterval 60 stream).map XferTrace.written = some [73, 49] ∧
      (setInterval 300 stream).map XferTrace.written = some [73, 50]) := by
  constructor
  · intro value hval stream
    push_neg at hval
    obtain ⟨h10, h60, h300⟩ := hval
    rw [setInterval, intervalCode, if_neg h10, if_neg h60, if_neg h300]
  · intro stream
    refine ⟨?_, ?_, ?_⟩ <;>
      simp [setInterval, intervalCode, xferModel_written]

/-- C8 counterexample: the exchange `xfer("F", 256, "0000", True)` against
a device whose first answered byte is 0 (not the echoed command byte 70)
exits by raising the framing assertion with the connection still open —
so there is an exit path on which the connection is not closed. -/
theorem c8_counterexample :
    (xferModel 70 [48, 48, 48, 48] (Sum.inl 256) [0]).result = Except.error () ∧
    (xferModel 70 [48, 48, 48, 48] (Sum.inl 256) [0]).closed = false := by
  constructor <;> rfl

/-- C8 (amended): the exchange closes the connection exactly on the
successful exit path — whenever a payload is returned the connection was
closed first; when the echo assertion raises (the framing-mismatch path)
the `close` on line 72 is never reached and the connection stays open. -/
theorem c8_closeOnSuccess (cmd : Nat) (params : List Nat) (expected : Nat ⊕ List Nat)
    (stream : List Nat) :
    ((∃ pl, (xferModel cmd params expected stream).result = Except.ok pl) ↔
      (xferModel cmd params expected stream).closed = true) ∧
    ((xferModel cmd params expected stream).result = Except.error () →
      (xferModel cmd params expected stream).closed = false) := by
  cases stream with
  | nil => simp [xferModel]
  | cons e rest =>
    by_cases h : e = cmd <;> simp [xferModel, h]

/-- C5: The configuration decoder maps the reply pair
"d000010 20.07.15 11:44:56" / "oC1 I2 T20.07.15 12:34:56" to
count 10, start 2015-07-20 11:44:56, humidity on, interval 300 s; and in
general, whenever decoding succeeds, the humidity flag is true exactly
when the second character of the mode field is a nonzero digit, and the
interval comes from the table [10, 60, 300] indexed by the second
character of the interval field (necessarily a digit at most 2). -/
theorem c5_configurationDecode :
    (configurationFromReplies ("d000010 20.07.15 11:44:56".data)
        ("oC1 I2 T20.07.15 12:34:56".data)
      = some { count := 10,
               start := { year := 2015, month := 7, day := 20,
                          hour := 11, minute := 44, second := 56 },
               humidity := true, interval := 300 }) ∧
    (∀ dPayload oPayload : List Char, ∀ cfg : Config,
      configurationOf dPayload oPayload = some cfg →
      ∃ modeS intervalS dS tS : List Char,
        splitWs oPayload = [modeS, intervalS, dS, tS] ∧
        (∃ a c : Char, ∃ rest : List Char, modeS = a :: c :: rest ∧
          ((cfg.humidity = true) ↔ ∃ k, digitVal c = some k ∧ 0 < k)) ∧
        (∃ a c : Char, ∃ rest : List Char, ∃ n : Nat, intervalS = a :: c :: rest ∧
          digitVal c = some n ∧ n ≤ 2 ∧ cfg.interval = [10, 60, 300].getD n 0)) := by
  constructor
  · decide
  · intro dP oP cfg h
    rw [configurationOf] at h
    split at h
    case _ countS dateS timeS modeS intervalS dS tS heqd heqo =>
      simp only [Option.bind_eq_some] at h
      obtain ⟨count, hcount, h⟩ := h
      obtain ⟨start, hstart, h⟩ := h
      obtain ⟨hd, hhd, h⟩ := h
      obtain ⟨ic, hic, h⟩ := h
      obtain ⟨iv, hiv, h⟩ := h
      have hcfg := Option.some.inj h
      subst hcfg
      refine ⟨modeS, intervalS, dS, tS, heqo, ?_, ?_⟩
      · split at hhd
        case _ a c rest =>
          refine ⟨a, c, rest, rfl, ?_⟩
          constructor
          · intro hhum
            exact ⟨hd, hhd, by simpa using hhum⟩
          · rintro ⟨k, hk, hkpos⟩
            rw [hhd] at hk
            have := Option.some.inj hk
            subst this
            simpa using hkpos
        case _ => exact absurd hhd (by simp)
      · split at hic
        case _ a c rest =>
          split at hiv
          case _ =>
            have hiv' := Option.some.inj hiv
            exact ⟨a, c, rest, 0, rfl, hic, by omega, by simp [← hiv']⟩
          case _ =>
            have hiv' := Option.some.inj hiv
            exact ⟨a, c, rest, 1, rfl, hic, by omega, by simp [← hiv']⟩
          case _ =>
            have hiv' := Option.some.inj hiv
            exact ⟨a, c, rest, 2, rfl, hic, by omega, by simp [← hiv']⟩
          case _ => exact absurd hiv (by simp)
        case _ => exact absurd hic (by simp)
    case _ => simp at h

/-- Witness for C1 at a concrete device: all-zero 256-byte blocks and
count 130. -/
theorem c1_blockStream_witness :
    ∃ batches reqs,
      iterBlocks (fun _ => List.replicate 256 0) 130 false 0 10 (130 + 1) 0 0
        = some (batches, reqs) ∧
      (batches.map List.length).sum = 130 ∧
      (∀ k : Nat, (batches.getD k []).length = min 128 (130 - 128 * k)) ∧
      (130 = 130 → batches.map List.length = [128, 2]) :=
  c1_blockStream (fun _ => List.replicate 256 0) 130 0 10 (fun _ => by simp)

/-- Witness for C2 at a concrete pass: three samples from one all-zero
block, interval 10. -/
theorem c2_timestamps_witness :
    (([[⟨0, 0, none⟩, ⟨10, 0, none⟩, ⟨20, 0, none⟩]] : List (List Sample)).flatten.map
        Sample.time
      = (List.range
          ([[⟨0, 0, none⟩, ⟨10, 0, none⟩, ⟨20, 0, none⟩]] :
            List (List Sample)).flatten.length).map
          (fun i : Nat => (0 : Int) + (i : Int) * 10)) ∧
    (∀ k : Nat,
      ∀ x ∈ (([[⟨0, 0, none⟩, ⟨10, 0, none⟩, ⟨20, 0, none⟩]] :
          List (List Sample)).getD k []).getLast?,
      ∀ y ∈ (([[⟨0, 0, none⟩, ⟨10, 0, none⟩, ⟨20, 0, none⟩]] :
          List (List Sample)).getD (k + 1) []).head?,
        x.time + 10 = y.time) :=
  c2_timestamps (fun _ => List.replicate 256 0) 3 false 0 10 (Or.inl rfl) 4
    [[⟨0, 0, none⟩, ⟨10, 0, none⟩, ⟨20, 0, none⟩]] [0] (by
      have hd : decodeRecord false (List.replicate 256 0)
          = some (List.replicate 128 ((0 : Int), (none : Option Int))) := by decide
      rw [iterBlocks, if_pos (by norm_num), hd]
      dsimp only []
      norm_num [List.take_replicate, mkBatch]
      rw [iterBlocks]
      norm_num [List.replicate])

/-- Witness for C4 at interval 10, running count 0, 128 samples left. -/
theorem c4_tempDecode_witness :
    decodeRecord false (List.replicate 256 0)
      = some (List.replicate 128 ((0 : Int), (none : Option Int))) :=
  (c4_tempDecode 0 10 (Or.inl rfl) 0 128 (by norm_num)).2.1

end Tfd500
